import Mathlib

/-!
Verification of the Google-Maps image scraper (`src/app.py`).

The development shallowly embeds the pure core of the program:

* the JSON-like payload trees handled by the script (`JsonVal`),
* the URL classifier built from `IMAGE_HOSTS_REGEX`, `TINY_IMAGE_PARAM_REGEX`
  and the profile-picture size check (lines 21-25, 67-101),
* the recursive image-URL miner `find_image_urls_recursively` (lines 67-101),
* the positional lookup helper `get_nested_value` (lines 53-65),
* the title/address field extraction (lines 194-213),
* the `APP_INITIALIZATION_STATE` acquisition retry loop (lines 155-178),
* the download pipeline `download_image` / `main_with_downloads`
  (lines 103-136, 421-428).

Python strings are modelled as `List Char` (or Lean `String`, whose data is a
`List Char`), matching Python's per-character indexing and slicing.  Regexes
are embedded as executable decision procedures over `List Char` whose
structure follows the regex literally; Python `re` peculiarities that matter
(`fullmatch` vs `search`, leftmost matching, `$` also matching before a
trailing newline via the `\W` alternative) are noted at each definition.
-/

/-- The JSON-like trees produced by `json.loads` / `page.evaluate`:
`null`, booleans, numbers, strings, arrays and objects.  Numeric payloads are
modelled as integers; none of the verified code paths inspects numeric values
beyond Python truthiness and `str`. -/
inductive JsonVal where
  | null
  | bool (b : Bool)
  | num (n : Int)
  | str (s : String)
  | arr (items : List JsonVal)
  | obj (entries : List (String × JsonVal))

/-- Python truthiness (`if x:`) for the payload values:
`None`, `False`, `0`, `""`, `[]` and `{}` are falsy. -/
def truthy : JsonVal → Bool
  | JsonVal.null => false
  | JsonVal.bool b => b
  | JsonVal.num n => n != 0
  | JsonVal.str s => !s.isEmpty
  | JsonVal.arr l => !l.isEmpty
  | JsonVal.obj l => !l.isEmpty

/-- `listStartsWith l p` is Python `l.startswith(p)` on character lists. -/
def listStartsWith : List Char → List Char → Bool
  | _, [] => true
  | [], _ :: _ => false
  | c :: cs, p :: ps => c == p && listStartsWith cs ps

/-- `containsSubstr pat l` is Python `pat in l` (substring containment). -/
def containsSubstr (pat : List Char) : List Char → Bool
  | [] => listStartsWith [] pat
  | c :: rest => listStartsWith (c :: rest) pat || containsSubstr pat rest

/-- The character class `[a-zA-Z0-9\-_./=&?%]` of `IMAGE_HOSTS_REGEX`. -/
def isImgChar (c : Char) : Bool :=
  c.isAlphanum || c == '-' || c == '_' || c == '.' || c == '/' ||
    c == '=' || c == '&' || c == '?' || c == '%'

/-- `\w` of Python `re` restricted to ASCII (every string reaching the tiny
filter already passed `IMAGE_HOSTS_REGEX`, whose character classes are
ASCII). -/
def isWordChar (c : Char) : Bool := c.isAlphanum || c == '_'

def httpColonChars : List Char := ['h', 't', 't', 'p', ':']

def httpsColonChars : List Char := ['h', 't', 't', 'p', 's', ':']

def twoSlashes : List Char := ['/', '/']

def gucDotComChars : List Char :=
  ['.', 'g', 'o', 'o', 'g', 'l', 'e', 'u', 's', 'e', 'r', 'c', 'o', 'n',
   't', 'e', 'n', 't', '.', 'c', 'o', 'm']

def ggphtSufChars : List Char :=
  ['.', 'g', 'g', 'p', 'h', 't', '.', 'c', 'o', 'm']

/-- `.googleusercontent.com/profile/picture` -/
def profileSufChars : List Char :=
  gucDotComChars ++ ['/', 'p', 'r', 'o', 'f', 'i', 'l', 'e',
                     '/', 'p', 'i', 'c', 't', 'u', 'r', 'e']

/-- `"/profile/picture/"`, the substring test of line 76/93. -/
def profilePicMarker : List Char :=
  ['/', 'p', 'r', 'o', 'f', 'i', 'l', 'e', '/', 'p', 'i', 'c', 't', 'u',
   'r', 'e', '/']

/-- `x ++ suf` decomposition test with `x` nonempty and slash-free:
the shape of the `[^/]+\.ggpht\.com` and
`[^/]+\.googleusercontent\.com/profile/picture` alternatives. -/
def endsWithNoSlashBefore (suf hp : List Char) : Bool :=
  decide (suf.length < hp.length) &&
    hp.drop (hp.length - suf.length) == suf &&
    (hp.take (hp.length - suf.length)).all (· != '/')

/-- The host alternative
`lh[3-6]\.googleusercontent\.com|[^/]+\.ggpht\.com|[^/]+\.googleusercontent\.com/profile/picture`
of `IMAGE_HOSTS_REGEX` (line 22), as a whole-list match. -/
def altHostCheck (hp : List Char) : Bool :=
  (match hp with
   | 'l' :: 'h' :: d :: rest =>
     (d == '3' || d == '4' || d == '5' || d == '6') && rest == gucDotComChars
   | _ => false) ||
  endsWithNoSlashBefore ggphtSufChars hp ||
  endsWithNoSlashBefore profileSufChars hp

/-- After the leading `//` the regex requires `(hostAlt)/[class]+`.  A regex
match is an existential over decompositions; here the split point between the
host alternative and the final `/body` is enumerated explicitly. -/
def checkAfterSlashes (l : List Char) : Bool :=
  (List.range (l.length + 1)).any (fun i =>
    altHostCheck (l.take i) &&
      (match l.drop i with
       | '/' :: body => !body.isEmpty && body.all isImgChar
       | _ => false))

/-- `IMAGE_HOSTS_REGEX.fullmatch` (lines 21-23, used at lines 71 and 88):
`(?:https?:)?//(hostAlt)/[a-zA-Z0-9\-_./=&?%]+` must match the whole
string.  The optional scheme is one of the empty string, `http:`, `https:`. -/
def imageHostsFullmatch (l : List Char) : Bool :=
  (listStartsWith l twoSlashes && checkAfterSlashes (l.drop 2)) ||
  (listStartsWith l (httpColonChars ++ twoSlashes) && checkAfterSlashes (l.drop 7)) ||
  (listStartsWith l (httpsColonChars ++ twoSlashes) && checkAfterSlashes (l.drop 8))

/-- One anchored attempt of `TINY_IMAGE_PARAM_REGEX = [=&?]s(?:1[6-9]|[2-6]\d)($|\W)`
at the head of the list.  `$` (end of string, or just before a trailing
newline) is covered by the empty-rest case together with the `\W` case, since
a newline is itself a non-word character. -/
def tinyAt : List Char → Bool
  | c :: 's' :: d1 :: d2 :: rest =>
    (c == '=' || c == '&' || c == '?') &&
    ((d1 == '1' && (d2 == '6' || d2 == '7' || d2 == '8' || d2 == '9')) ||
     ((d1 == '2' || d1 == '3' || d1 == '4' || d1 == '5' || d1 == '6') &&
       d2.isDigit)) &&
    (match rest with
     | [] => true
     | r :: _ => !isWordChar r)
  | _ => false

/-- `TINY_IMAGE_PARAM_REGEX.search` (line 25, used at lines 75 and 92):
does the anchored pattern match at any position? -/
def tinyImageParamSearch : List Char → Bool
  | [] => false
  | c :: rest => tinyAt (c :: rest) || tinyImageParamSearch rest

/-- Decimal value of a digit run, as `int` applied to the matched group. -/
def digitsToNat (l : List Char) : Nat :=
  l.foldl (fun a c => a * 10 + (c.toNat - 48)) 0

/-- `re.search(r"[=/]s(\d+)", url)` (lines 79 and 96): leftmost occurrence of
`[=/]s` followed by at least one digit; the captured group is the maximal
digit run (`\d+` is greedy and followed by nothing). -/
def findProfileSize : List Char → Option Nat
  | [] => none
  | c :: rest =>
    if c == '=' || c == '/' then
      match rest with
      | 's' :: d :: rest2 =>
        if d.isDigit then some (digitsToNat (d :: rest2.takeWhile Char.isDigit))
        else findProfileSize rest
      | _ => findProfileSize rest
    else findProfileSize rest

/-- Lines 74 and 91: `if url_to_add.startswith('//'): url_to_add = 'https:' + url_to_add`. -/
def normalizeUrl (l : List Char) : List Char :=
  if listStartsWith l twoSlashes then httpsColonChars ++ l else l

/-- Lines 76-81 / 93-98: a URL is a small profile picture when it contains
`"/profile/picture/"` and `re.search(r"[=/]s(\d+)")` finds a size below 100. -/
def isSmallProfilePic (l : List Char) : Bool :=
  containsSubstr profilePicMarker l &&
    (match findProfileSize l with
     | some n => decide (n < 100)
     | none => false)

/-- The complete per-string classification of `find_image_urls_recursively`
(lines 70-83 for dict values, 87-100 for list items; the two branches agree
because `fullmatch` makes `match.group(0)` the whole string): fullmatch the
host regex, normalize protocol-relative URLs, reject tiny images, reject
small profile pictures; `some` returns the URL added to the set. -/
def classifyUrl (l : List Char) : Option (List Char) :=
  if imageHostsFullmatch l then
    let u := normalizeUrl l
    if tinyImageParamSearch u then none
    else if isSmallProfilePic u then none
    else some u
  else none

/-- The contribution of one string encountered as a dict value / list item. -/
def classifySet (s : String) : Finset String :=
  match classifyUrl s.data with
  | some u => {String.mk u}
  | none => ∅

mutual

/-- `find_image_urls_recursively` (lines 67-101), with the mutated
`found_urls_set` accumulator made explicit as a returned `Finset`.
Dict nodes walk their values, list nodes their items; every other node
contributes nothing. -/
def findImageUrls : JsonVal → Finset String
  | JsonVal.obj kvs => findPairs kvs
  | JsonVal.arr l => findItems l
  | _ => ∅

/-- The dict branch (lines 68-84): string values are classified, other
values are recursed into; keys are never inspected. -/
def findPairs : List (String × JsonVal) → Finset String
  | [] => ∅
  | (_, JsonVal.str s) :: rest => classifySet s ∪ findPairs rest
  | (_, v) :: rest => findImageUrls v ∪ findPairs rest

/-- The list branch (lines 85-101): string items are classified, other
items are recursed into. -/
def findItems : List JsonVal → Finset String
  | [] => ∅
  | JsonVal.str s :: rest => classifySet s ∪ findItems rest
  | v :: rest => findImageUrls v ∪ findItems rest

end

/-- The source entry point: `find_image_urls_recursively(data, found)` adds
into the caller-supplied set. -/
def find_image_urls_recursively (d : JsonVal) (found : Finset String) : Finset String :=
  found ∪ findImageUrls d

/-- Line 218-220: `sorted(list(image_urls_found_recursively))`. -/
def sortedImageUrls (d : JsonVal) : List String :=
  (find_image_urls_recursively d ∅).sort (· ≤ ·)

/-- Path steps of `get_nested_value` (line 53): either an integer index or a
string key.  The source also returns the default on a step of any other
type; such steps never occur and are not representable here. -/
inductive PathKey where
  | idx (i : Int)
  | key (k : String)

/-- Python `key in dict` / `dict[key]` on the association-list model of a
JSON object (first binding wins; `json.loads` keeps keys unique). -/
def lookupKey (k : String) : List (String × JsonVal) → Option JsonVal
  | [] => none
  | (k2, v) :: rest => if k2 == k then some v else lookupKey k rest

/-- `get_nested_value(data, path, default)` (lines 53-65): walk the path,
returning the default as soon as a step is out of bounds, missing, or applied
to a value of the wrong type. -/
def get_nested_value : JsonVal → List PathKey → JsonVal → JsonVal
  | data, [], _ => data
  | data, PathKey.idx i :: rest, dflt =>
    match data with
    | JsonVal.arr l =>
      if h : 0 ≤ i ∧ i.toNat < l.length then
        get_nested_value (l.get ⟨i.toNat, h.2⟩) rest dflt
      else dflt
    | _ => dflt
  | data, PathKey.key k :: rest, dflt =>
    match data with
    | JsonVal.obj kvs =>
      match lookupKey k kvs with
      | some v => get_nested_value v rest dflt
      | none => dflt
    | _ => dflt

/-- Python whitespace stripped by `str.strip()` (ASCII part; the verified
inputs contain no exotic Unicode spaces). -/
def isPySpace (c : Char) : Bool :=
  c == ' ' || c == '\t' || c == '\n' || c == '\r' ||
    c == Char.ofNat 11 || c == Char.ofNat 12

/-- Python `s.strip()`. -/
def pyStrip (s : String) : String :=
  String.mk (((s.data.dropWhile isPySpace).reverse.dropWhile isPySpace).reverse)

/-- Python `s.lstrip(", ")`: drop leading commas and spaces. -/
def lstripCommaSpace (s : String) : String :=
  String.mk (s.data.dropWhile (fun c => c == ',' || c == ' '))

mutual

/-- Python `repr` of a payload value, as called by `str` on non-string
values.  String `repr` is modelled for strings without quotes, backslashes
or non-printable characters (the only kind the extractor meets). -/
def pyRepr : JsonVal → String
  | JsonVal.null => "None"
  | JsonVal.bool true => "True"
  | JsonVal.bool false => "False"
  | JsonVal.num n => toString n
  | JsonVal.str s => String.mk (Char.ofNat 39 :: s.data ++ [Char.ofNat 39])
  | JsonVal.arr l => "[" ++ pyReprItems l ++ "]"
  | JsonVal.obj kvs => String.mk [Char.ofNat 123] ++ pyReprPairs kvs ++ String.mk [Char.ofNat 125]

/-- `", ".join(map(repr, l))` as used inside Python list `repr`. -/
def pyReprItems : List JsonVal → String
  | [] => ""
  | [x] => pyRepr x
  | x :: y :: rest => pyRepr x ++ ", " ++ pyReprItems (y :: rest)

/-- The `'key': value` comma-separated body of Python dict `repr`. -/
def pyReprPairs : List (String × JsonVal) → String
  | [] => ""
  | [(k, v)] => String.mk (Char.ofNat 39 :: k.data ++ [Char.ofNat 39]) ++ ": " ++ pyRepr v
  | kv :: kv2 :: rest => String.mk (Char.ofNat 39 :: kv.1.data ++ [Char.ofNat 39]) ++ ": " ++ pyRepr kv.2 ++ ", " ++ pyReprPairs (kv2 :: rest)

end

/-- Python `str(v)`: the string itself for strings, `repr`-like rendering
otherwise. -/
def pyStr : JsonVal → String
  | JsonVal.str s => s
  | v => pyRepr v

/-- `", ".join(parts)`. -/
def joinCommaSpace : List String → String
  | [] => ""
  | [x] => x
  | x :: y :: rest => x ++ ", " ++ joinCommaSpace (y :: rest)

/-- Lines 197-199: the title is the stripped string at `darray[1]` provided
that value is truthy and a string; otherwise it stays `None`. -/
def titleFrom (v : JsonVal) : Option String :=
  if truthy v then
    match v with
    | JsonVal.str s => some (pyStrip s)
    | _ => none
  else none

/-- Lines 201-212: the address from the value at `darray[2]`.  A truthy list
is stringified part-wise (dropping `None` parts), joined with `", "`,
stripped, and the leading title (with its separator) removed when the joined
address starts with a truthy title; a truthy non-list is coerced with `str`;
a falsy value leaves the address `None`. -/
def addressFrom (title : Option String) (v : JsonVal) : Option String :=
  if truthy v then
    match v with
    | JsonVal.arr parts =>
      let address_parts := parts.filterMap (fun p =>
        match p with
        | JsonVal.null => none
        | p => some (pyStr p))
      let cleaned := pyStrip (joinCommaSpace address_parts)
      let cleaned2 :=
        match title with
        | some t =>
          if !t.isEmpty && listStartsWith cleaned.data t.data then
            pyStrip (lstripCommaSpace (String.mk (cleaned.data.drop t.length)))
          else cleaned
        | none => cleaned
      some cleaned2
    | _ => some (pyStrip (pyStr v))
  else none

/-- Lines 197-212 over the record block `darray`: title from offset `[1]`,
address from offset `[2]`. -/
def extractFields (darray : JsonVal) : Option String × Option String :=
  let title := titleFrom (get_nested_value darray [PathKey.idx 1] JsonVal.null)
  (title, addressFrom title (get_nested_value darray [PathKey.idx 2] JsonVal.null))

/-- Lines 194-213 over the whole payload: the record block lives at
`json_data_obj[1][11][0][0]`; a falsy block leaves both fields `None`. -/
def extractFromPayload (j : JsonVal) : Option String × Option String :=
  let darray := get_nested_value j
    [PathKey.idx 1, PathKey.idx 11, PathKey.idx 0, PathKey.idx 0] JsonVal.null
  if truthy darray then extractFields darray else (none, none)

/-- One extracted place record (the pure fields of `place_data_to_return`). -/
structure PlaceData where
  title : Option String
  address : Option String
  image_urls : List String

/-- Lines 190-225, the pure part of `extract_images_for_place` applied to the
acquired payload: a truthy payload is mined for fields and image URLs
(line 220 sorts the deduplicated set); otherwise everything stays empty. -/
def processPayload : Option JsonVal → PlaceData
  | some j =>
    if truthy j then
      let fields := extractFromPayload j
      PlaceData.mk fields.1 fields.2 (sortedImageUrls j)
    else PlaceData.mk none none []
  | none => PlaceData.mk none none []

/-- The five-character marker `)]}'\n` tested by
`raw_json_data_str.startswith(")]}'\n")` (line 164). -/
def securityMarker : List Char :=
  [')', ']', Char.ofNat 125, Char.ofNat 39, Char.ofNat 10]

/-- Line 164: `raw[4:] if raw.startswith(")]}'\n") else raw` — the string
handed to `json.loads`.  Note the marker test is five characters long while
the slice removes the first four (`)]}'`), leaving the newline, which
`json.loads` ignores as leading whitespace. -/
def stringForSecondaryParse (s : String) : String :=
  if listStartsWith s.data securityMarker then String.mk (s.data.drop 4) else s

/-- One iteration body of the acquisition loop (lines 160-175), with
`json.loads` abstracted as `parse`: a truthy string is stripped of the
security marker and parsed (`some` on success breaks the loop, a parse
failure resets `json_data_obj` to `None` and continues); a truthy non-string
breaks immediately; a falsy evaluation continues. -/
def acquireAttempt (parse : String → Option JsonVal) (v : JsonVal) : Option JsonVal :=
  if truthy v then
    match v with
    | JsonVal.str s => parse (stringForSecondaryParse s)
    | _ => some v
  else none

/-- Result of the acquisition loop: the payload (if any), the number of
attempts performed, and the number of `asyncio.sleep(3)` calls (each sleep
lasts 3 seconds). -/
structure AcqOut where
  payload : Option JsonVal
  attempts : Nat
  sleeps : Nat

/-- The `for attempt in range(3)` loop of lines 155-178, over the remaining
attempt indices.  `collab` is the rendering collaborator: the value returned
by `page.evaluate` on each attempt.  Line 178 sleeps 3 seconds only when
`attempt < 2` and the loop was not left by `break`. -/
def acquireList (parse : String → Option JsonVal) (collab : Nat → JsonVal) :
    List Nat → Nat → Nat → AcqOut
  | [], att, slp => AcqOut.mk none att slp
  | a :: rest, att, slp =>
    match acquireAttempt parse (collab a) with
    | some j => AcqOut.mk (some j) (att + 1) slp
    | none =>
      acquireList parse collab rest (att + 1) (if a < 2 then slp + 1 else slp)

/-- The whole acquisition controller: three attempts, indices 0, 1, 2. -/
def acquire (parse : String → Option JsonVal) (collab : Nat → JsonVal) : AcqOut :=
  acquireList parse collab [0, 1, 2] 0 0

/-- Outcome of one HTTP GET as seen by `download_image`: any exception
(client error, timeout, non-success status) collapses to `fail`; a success
carries the declared `Content-Type` header value (empty when absent). -/
inductive FetchResult where
  | fail
  | ok (contentType : List Char)

/-- Trailing group `(-[a-zA-Z0-9]+)?$` of the size-suffix pattern
(line 105); `$` is modelled as end of input (image URLs contain no
newline). -/
def sizeOpt2 (l : List Char) : Bool :=
  l.isEmpty ||
  (match l with
   | '-' :: rest => !rest.isEmpty && rest.all (·.isAlphanum)
   | _ => false)

/-- Middle group `(-[wh]\d+)?` followed by `sizeOpt2`. -/
def sizeOpt1 (l : List Char) : Bool :=
  sizeOpt2 l ||
  (match l with
   | '-' :: t :: rest =>
     (t == 'w' || t == 'h') &&
       !(rest.takeWhile Char.isDigit).isEmpty &&
       sizeOpt2 (rest.dropWhile Char.isDigit)
   | _ => false)

/-- Anchored match of `=[swh]\d+(-[wh]\d+)?(-[a-zA-Z0-9]+)?$` at the head of
the list, must reach the end (`\d+` is forced maximal: the next token can
only be `-` or the end). -/
def sizeSuffixMatch (l : List Char) : Bool :=
  match l with
  | '=' :: t :: rest =>
    (t == 's' || t == 'w' || t == 'h') &&
      !(rest.takeWhile Char.isDigit).isEmpty &&
      sizeOpt1 (rest.dropWhile Char.isDigit)
  | _ => false

/-- Line 105: `re.sub(r'=[swh]\d+(-[wh]\d+)?(-[a-zA-Z0-9]+)?$', '', url)` —
delete the leftmost suffix matching the size/crop pattern. -/
def stripSizeSuffix : List Char → List Char
  | [] => []
  | c :: rest =>
    if sizeSuffixMatch (c :: rest) then [] else c :: stripSizeSuffix rest

def extJpg : List Char := ['.', 'j', 'p', 'g']

def extJpeg : List Char := ['.', 'j', 'p', 'e', 'g']

def extPng : List Char := ['.', 'p', 'n', 'g']

def extGif : List Char := ['.', 'g', 'i', 'f']

def extWebp : List Char := ['.', 'w', 'e', 'b', 'p']

/-- Lines 115-118: extension from the lowercased `Content-Type`, by substring
containment, first match of the `if`/`elif` chain wins. -/
def extFromContentType (ct : List Char) : Option (List Char) :=
  if containsSubstr ['j', 'p', 'e', 'g'] ct || containsSubstr ['j', 'p', 'g'] ct then
    some extJpg
  else if containsSubstr ['p', 'n', 'g'] ct then some extPng
  else if containsSubstr ['g', 'i', 'f'] ct then some extGif
  else if containsSubstr ['w', 'e', 'b', 'p'] ct then some extWebp
  else none

/-- Python `s.split(sep)[-1]`: the segment after the last separator. -/
def afterLastChar (sep : Char) (l : List Char) : List Char :=
  (l.reverse.takeWhile (· != sep)).reverse

/-- Lines 119-123: fallback extension from
`url.split('?')[0].split('/')[-1]` when it contains a dot and its lowercased
last dot-segment is a known image extension. -/
def extFromUrl (url : List Char) : Option (List Char) :=
  let url_path_part := afterLastChar '/' (url.takeWhile (· != '?'))
  if url_path_part.contains '.' then
    let potential_ext := '.' :: (afterLastChar '.' url_path_part).map Char.toLower
    if potential_ext == extJpg || potential_ext == extJpeg ||
       potential_ext == extPng || potential_ext == extGif ||
       potential_ext == extWebp then
      some potential_ext
    else none
  else none

/-- Lines 113-123 combined: content type first, then the URL path, defaulting
to `.jpg`. -/
def extensionFor (ct : List Char) (url : List Char) : List Char :=
  match extFromContentType (ct.map Char.toLower) with
  | some e => e
  | none =>
    match extFromUrl url with
    | some e => e
    | none => extJpg

/-- `f"{n:03d}"`. -/
def pad3 (n : Nat) : List Char :=
  let s := (toString n).data
  List.replicate (3 - s.length) '0' ++ s

def imageFilePrefixChars : List Char := ['i', 'm', 'a', 'g', 'e', '_']

/-- `download_image` (lines 103-136) with the HTTP client abstracted as
`fetch` (applied to the size-stripped URL): every failure is caught inside
the function and yields `none`; a success yields the written filename
`image_{counter:03d}{ext}` (the extension fallback inspects the original
URL, line 120). -/
def download_image (fetch : List Char → FetchResult) (url : List Char)
    (image_counter : Nat) : Option (List Char) :=
  match fetch (stripSizeSuffix url) with
  | FetchResult.fail => none
  | FetchResult.ok ct =>
    some (imageFilePrefixChars ++ pad3 image_counter ++ extensionFor ct url)

/-- Lines 421-426: one download task per URL, counters `img_counter + 1`
starting from `k`; `asyncio.gather` returns the outcomes in task order. -/
def downloadBatchFrom (fetch : List Char → FetchResult) (k : Nat) :
    List (List Char) → List (Option (List Char))
  | [] => []
  | u :: rest => download_image fetch u k :: downloadBatchFrom fetch (k + 1) rest

/-- The per-place batch: counters are the 1-based positions in the URL list. -/
def downloadBatch (fetch : List Char → FetchResult) (urls : List (List Char)) :
    List (Option (List Char)) :=
  downloadBatchFrom fetch 1 urls

/-- Line 427: `sum(1 for r in download_results if r)`. -/
def succeededCount (outs : List (Option (List Char))) : Nat :=
  outs.countP Option.isSome

/-- `n`-fold wrapping in a one-element array, for depth experiments. -/
def nestArr : Nat → JsonVal → JsonVal
  | 0, v => v
  | n + 1, v => JsonVal.arr [nestArr n v]

/-- `n`-fold wrapping in a one-key object. -/
def nestObj : Nat → JsonVal → JsonVal
  | 0, v => v
  | n + 1, v => JsonVal.obj [("k", nestObj n v)]

/-- The contribution of a single list item / dict value to the mined set:
strings are classified, everything else recursed into. -/
def itemUrls : JsonVal → Finset String
  | JsonVal.str s => classifySet s
  | v => findImageUrls v

/-- Whether a fetch outcome is a failure. -/
def isFailFetch : FetchResult → Bool
  | FetchResult.fail => true
  | FetchResult.ok _ => false

theorem listStartsWith_nil (l : List Char) : listStartsWith l [] = true := by
  cases l <;> rfl

theorem listStartsWith_append_self (p l : List Char) : listStartsWith (p ++ l) p = true := by
  induction p with
  | nil => exact listStartsWith_nil l
  | cons c cs ih => simp [listStartsWith, ih]

theorem filterMap_str_parts (parts : List String) :
    (parts.map JsonVal.str).filterMap (fun p =>
      match p with
      | JsonVal.null => none
      | p => some (pyStr p)) = parts := by
  induction parts with
  | nil => rfl
  | cons s rest ih => exact congrArg (List.cons s) ih

theorem titleFrom_eq_none_of_not_str (v : JsonVal) (h : ∀ s : String, v ≠ JsonVal.str s) :
    titleFrom v = none := by
  cases v with
  | str s => exact absurd rfl (h s)
  | null => rfl
  | bool b => simp [titleFrom]
  | num n => simp [titleFrom]
  | arr l => simp [titleFrom]
  | obj l => simp [titleFrom]

/-- C2: a payload string that begins with the `)]}'` security marker (tested
together with its following newline) has exactly its first four characters
removed before the secondary `json.loads` parse, and a string without the
marker is handed to the parser unchanged. -/
theorem spec_C2 (s : String) :
    (listStartsWith s.data securityMarker = true →
       stringForSecondaryParse s = String.mk (s.data.drop 4) ∧
       s.data = [')', ']', Char.ofNat 125, Char.ofNat 39] ++ (stringForSecondaryParse s).data) ∧
    (listStartsWith s.data securityMarker = false → stringForSecondaryParse s = s) := by
  constructor
  · intro h
    refine ⟨by simp [stringForSecondaryParse, h], ?_⟩
    obtain ⟨d⟩ := s
    rcases d with _ | ⟨c1, _ | ⟨c2, _ | ⟨c3, _ | ⟨c4, _ | ⟨c5, rest⟩⟩⟩⟩⟩ <;>
      simp [listStartsWith, securityMarker] at h
    obtain ⟨h1, h2, h3, h4, h5⟩ := h
    subst h1; subst h2; subst h3; subst h4; subst h5
    simp [stringForSecondaryParse, listStartsWith, securityMarker]
  · intro h
    simp [stringForSecondaryParse, h]

theorem spec_C2_witness :
    stringForSecondaryParse (String.mk (securityMarker ++ ['[', '1', ']'])) =
      String.mk ((String.mk (securityMarker ++ ['[', '1', ']'])).data.drop 4) ∧
    (String.mk (securityMarker ++ ['[', '1', ']'])).data =
      [')', ']', Char.ofNat 125, Char.ofNat 39] ++
        (stringForSecondaryParse (String.mk (securityMarker ++ ['[', '1', ']']))).data :=
  (spec_C2 (String.mk (securityMarker ++ ['[', '1', ']']))).1 (by decide)

/-- C5: the address parts are joined with `", "`; when the joined, stripped
address starts with the (truthy) extracted title, the title and the following
separator characters are removed.  Concretely, title `Café De Paris` with
address parts `["Café De Paris", "12 Main St"]` yields address
`12 Main St`. -/
theorem spec_C5 :
    extractFields (JsonVal.arr [JsonVal.null, JsonVal.str "Café De Paris",
        JsonVal.arr [JsonVal.str "Café De Paris", JsonVal.str "12 Main St"]]) =
      (some "Café De Paris", some "12 Main St") ∧
    (∀ (title : String) (parts : List String), parts ≠ [] →
      addressFrom (some title) (JsonVal.arr (parts.map JsonVal.str)) = some (
        if !title.isEmpty && listStartsWith (pyStrip (joinCommaSpace parts)).data title.data
        then pyStrip (lstripCommaSpace (String.mk ((pyStrip (joinCommaSpace parts)).data.drop title.length)))
        else pyStrip (joinCommaSpace parts))) := by
  constructor
  · decide
  · intro title parts hne
    have ht : truthy (JsonVal.arr (parts.map JsonVal.str)) = true := by
      simp [truthy, List.isEmpty_iff, hne]
    simp only [addressFrom, ht, if_true, filterMap_str_parts]

theorem spec_C5_witness :
    addressFrom (some "Café De Paris")
        (JsonVal.arr (["Café De Paris", "12 Main St"].map JsonVal.str)) = some (
      if !(String.isEmpty "Café De Paris") &&
          listStartsWith (pyStrip (joinCommaSpace ["Café De Paris", "12 Main St"])).data
            (String.data "Café De Paris")
      then pyStrip (lstripCommaSpace (String.mk
        ((pyStrip (joinCommaSpace ["Café De Paris", "12 Main St"])).data.drop
          (String.length "Café De Paris"))))
      else pyStrip (joinCommaSpace ["Café De Paris", "12 Main St"])) :=
  spec_C5.2 "Café De Paris" ["Café De Paris", "12 Main St"] (by decide)

/-- C6: positional lookups degrade gracefully and independently — an index
step on a non-array, an out-of-bounds index, a key step on a non-object, or
a missing key all return the default; and a record block whose title offset
is missing (default `null`) or holds a non-string yields `title = none`
while the address is still computed from its own offset exactly as it would
be with no title. -/
theorem spec_C6 :
    (∀ (dflt : JsonVal) (i : Int) (rest : List PathKey) (data : JsonVal),
        (∀ l, data ≠ JsonVal.arr l) →
        get_nested_value data (PathKey.idx i :: rest) dflt = dflt) ∧
    (∀ (dflt : JsonVal) (i : Int) (rest : List PathKey) (l : List JsonVal),
        ¬(0 ≤ i ∧ i.toNat < l.length) →
        get_nested_value (JsonVal.arr l) (PathKey.idx i :: rest) dflt = dflt) ∧
    (∀ (dflt : JsonVal) (k : String) (rest : List PathKey) (data : JsonVal),
        (∀ kvs, data ≠ JsonVal.obj kvs) →
        get_nested_value data (PathKey.key k :: rest) dflt = dflt) ∧
    (∀ (dflt : JsonVal) (k : String) (rest : List PathKey) (kvs : List (String × JsonVal)),
        lookupKey k kvs = none →
        get_nested_value (JsonVal.obj kvs) (PathKey.key k :: rest) dflt = dflt) ∧
    (∀ darray : JsonVal,
        (∀ s : String, get_nested_value darray [PathKey.idx 1] JsonVal.null ≠ JsonVal.str s) →
        extractFields darray =
          (none, addressFrom none (get_nested_value darray [PathKey.idx 2] JsonVal.null))) ∧
    extractFields (JsonVal.arr [JsonVal.null, JsonVal.null,
        JsonVal.arr [JsonVal.str "12 Main St"]]) = (none, some "12 Main St") := by
  refine ⟨?_, ?_, ?_, ?_, ?_, by decide⟩
  · intro dflt i rest data h
    cases data with
    | arr l => exact absurd rfl (h l)
    | null => rfl
    | bool b => rfl
    | num n => rfl
    | str s => rfl
    | obj kvs => rfl
  · intro dflt i rest l h
    simp [get_nested_value, h]
  · intro dflt k rest data h
    cases data with
    | obj kvs => exact absurd rfl (h kvs)
    | null => rfl
    | bool b => rfl
    | num n => rfl
    | str s => rfl
    | arr l => rfl
  · intro dflt k rest kvs h
    simp [get_nested_value, h]
  · intro darray h
    have hnone : titleFrom (get_nested_value darray [PathKey.idx 1] JsonVal.null) = none :=
      titleFrom_eq_none_of_not_str _ h
    simp [extractFields, hnone]

theorem spec_C6_witness :
    get_nested_value JsonVal.null [PathKey.idx 0] (JsonVal.str "dflt") = JsonVal.str "dflt" ∧
    extractFields (JsonVal.arr [JsonVal.null, JsonVal.num 7, JsonVal.arr [JsonVal.str "Addr"]]) =
      (none, addressFrom none (get_nested_value
        (JsonVal.arr [JsonVal.null, JsonVal.num 7, JsonVal.arr [JsonVal.str "Addr"]])
        [PathKey.idx 2] JsonVal.null)) :=
  ⟨spec_C6.1 (JsonVal.str "dflt") 0 [] JsonVal.null (fun _ h => JsonVal.noConfusion h),
   spec_C6.2.2.2.2.1 (JsonVal.arr [JsonVal.null, JsonVal.num 7, JsonVal.arr [JsonVal.str "Addr"]])
     (fun _ h => JsonVal.noConfusion h)⟩

/-- C7 counterexample: the record block `[null, "T", 0]` holds the
non-sequence value `0` at the address offset, yet the extracted address is
`none` (`0` is falsy, so the `str` coercion branch is never reached),
contradicting the claim that every non-sequence value is coerced to a
string. -/
theorem spec_C7_cex :
    extractFields (JsonVal.arr [JsonVal.null, JsonVal.str "T", JsonVal.num 0]) =
      (some "T", none) := by
  decide

/-- C7 (amended): a *truthy* non-sequence value at the address offset is
coerced to a string (and stripped) as the address; falsy values (null,
False, 0, empty string) leave the address as not-found. -/
theorem spec_C7 (v : JsonVal) (title : Option String) (ht : truthy v = true)
    (hna : ∀ l, v ≠ JsonVal.arr l) :
    addressFrom title v = some (pyStrip (pyStr v)) := by
  cases v with
  | arr l => exact absurd rfl (hna l)
  | null => simp [truthy] at ht
  | bool b => simp [addressFrom, ht]
  | num n => simp [addressFrom, ht]
  | str s => simp [addressFrom, ht]
  | obj kvs => simp [addressFrom, ht]

theorem spec_C7_witness :
    truthy (JsonVal.num 5) = true ∧
    addressFrom none (JsonVal.num 5) = some (pyStrip (pyStr (JsonVal.num 5))) :=
  ⟨rfl, spec_C7 (JsonVal.num 5) none rfl (fun _ h => JsonVal.noConfusion h)⟩

/-- C9: the miner is a total function; on an empty mapping or empty sequence
it returns the empty set, and wrapping any value `v` in `n + 1` levels of
one-element arrays, or of one-key objects, still yields exactly the URLs
contributed by `v` itself — so a valid image URL is collected from any
finite nesting depth. -/
theorem spec_C9 :
    (findImageUrls (JsonVal.obj []) = ∅ ∧ findImageUrls (JsonVal.arr []) = ∅) ∧
    (∀ (n : Nat) (v : JsonVal), findImageUrls (nestArr (n + 1) v) = itemUrls v) ∧
    (∀ (n : Nat) (v : JsonVal), findImageUrls (nestObj (n + 1) v) = itemUrls v) := by
  have harr : ∀ (n : Nat) (v : JsonVal), findImageUrls (nestArr (n + 1) v) = itemUrls v := by
    intro n
    induction n with
    | zero =>
      intro v
      cases v <;> simp [nestArr, findImageUrls, findItems, itemUrls]
    | succ m ih =>
      intro v
      have step : findImageUrls (nestArr (m + 2) v) = findImageUrls (nestArr (m + 1) v) := by
        show findImageUrls (JsonVal.arr [JsonVal.arr [nestArr m v]]) =
          findImageUrls (JsonVal.arr [nestArr m v])
        simp [findImageUrls, findItems]
      rw [step, ih v]
  have hobj : ∀ (n : Nat) (v : JsonVal), findImageUrls (nestObj (n + 1) v) = itemUrls v := by
    intro n
    induction n with
    | zero =>
      intro v
      cases v <;> simp [nestObj, findImageUrls, findPairs, itemUrls]
    | succ m ih =>
      intro v
      have step : findImageUrls (nestObj (m + 2) v) = findImageUrls (nestObj (m + 1) v) := by
        show findImageUrls (JsonVal.obj [("k", JsonVal.obj [("k", nestObj m v)])]) =
          findImageUrls (JsonVal.obj [("k", nestObj m v)])
        simp [findImageUrls, findPairs]
      rw [step, ih v]
  exact ⟨⟨rfl, rfl⟩, harr, hobj⟩

/-- C10: only strings in value/element position are classified — a payload
that is itself a bare string yields the empty set even when that very string
is classified as a valid image URL in value position, and replacing every
mapping key leaves the mined set unchanged (keys are never inspected);
in particular an object whose key is a valid image URL contributes
nothing. -/
theorem spec_C10 :
    (∀ s : String, findImageUrls (JsonVal.str s) = ∅) ∧
    (∀ (f : String → String) (kvs : List (String × JsonVal)),
        findPairs (kvs.map (fun kv => (f kv.1, kv.2))) = findPairs kvs) ∧
    classifySet "https://lh3.googleusercontent.com/abc" =
      {"https://lh3.googleusercontent.com/abc"} ∧
    findImageUrls (JsonVal.obj [("https://lh3.googleusercontent.com/abc", JsonVal.null)]) = ∅ := by
  refine ⟨fun s => rfl, ?_, by decide, by decide⟩
  intro f kvs
  induction kvs with
  | nil => rfl
  | cons kv rest ih =>
    obtain ⟨k, v⟩ := kv
    cases v <;> simp [findPairs, ih]

/-- C1: the acquisition controller performs at most 3 attempts with at most
2 sleeps (each `asyncio.sleep(3)`); it returns no payload only when all 3
attempts were made (and both waits taken); an attempt whose evaluation is
structured or parses stops the loop immediately with that value; and a
collaborator that is absent twice and then yields a (truthy) string that
parses results in exactly 3 attempts, 2 waits, and the parsed object. -/
theorem spec_C1 (parse : String → Option JsonVal) (collab : Nat → JsonVal) :
    ((acquire parse collab).attempts ≤ 3 ∧ (acquire parse collab).sleeps ≤ 2) ∧
    ((acquire parse collab).payload = none →
       (acquire parse collab).attempts = 3 ∧ (acquire parse collab).sleeps = 2) ∧
    (∀ j, acquireAttempt parse (collab 0) = some j →
       acquire parse collab = AcqOut.mk (some j) 1 0) ∧
    (∀ (s : String) (j : JsonVal), truthy (collab 0) = false → truthy (collab 1) = false →
       collab 2 = JsonVal.str s → truthy (JsonVal.str s) = true →
       parse (stringForSecondaryParse s) = some j →
       acquire parse collab = AcqOut.mk (some j) 3 2) := by
  refine ⟨?_, ?_, ?_, ?_⟩
  · rcases h0 : acquireAttempt parse (collab 0) with _ | j0
    · rcases h1 : acquireAttempt parse (collab 1) with _ | j1
      · rcases h2 : acquireAttempt parse (collab 2) with _ | j2 <;>
          simp [acquire, acquireList, h0, h1, h2]
      · simp [acquire, acquireList, h0, h1]
    · simp [acquire, acquireList, h0]
  · intro hp
    rcases h0 : acquireAttempt parse (collab 0) with _ | j0
    · rcases h1 : acquireAttempt parse (collab 1) with _ | j1
      · rcases h2 : acquireAttempt parse (collab 2) with _ | j2
        · simp [acquire, acquireList, h0, h1, h2]
        · simp [acquire, acquireList, h0, h1, h2] at hp
      · simp [acquire, acquireList, h0, h1] at hp
    · simp [acquire, acquireList, h0] at hp
  · intro j hj
    simp [acquire, acquireList, hj]
  · intro s j ht0 ht1 hc2 hts hp
    have h0 : acquireAttempt parse (collab 0) = none := by simp [acquireAttempt, ht0]
    have h1 : acquireAttempt parse (collab 1) = none := by simp [acquireAttempt, ht1]
    have h2 : acquireAttempt parse (collab 2) = some j := by
      rw [hc2]
      simp [acquireAttempt, hts, hp]
    simp [acquire, acquireList, h0, h1, h2]

theorem spec_C1_witness :
    acquire (fun s => if s = "[1]" then some (JsonVal.arr [JsonVal.num 1]) else none)
        (fun n => if n = 2 then JsonVal.str "[1]" else JsonVal.null) =
      AcqOut.mk (some (JsonVal.arr [JsonVal.num 1])) 3 2 :=
  (spec_C1 (fun s => if s = "[1]" then some (JsonVal.arr [JsonVal.num 1]) else none)
      (fun n => if n = 2 then JsonVal.str "[1]" else JsonVal.null)).2.2.2
    "[1]" (JsonVal.arr [JsonVal.num 1]) rfl rfl rfl rfl rfl

theorem downloadBatchFrom_length (fetch : List Char → FetchResult) :
    ∀ (urls : List (List Char)) (k : Nat),
      (downloadBatchFrom fetch k urls).length = urls.length := by
  intro urls
  induction urls with
  | nil => intro k; rfl
  | cons u rest ih => intro k; simp [downloadBatchFrom, ih (k + 1)]

theorem downloadBatchFrom_getElem (fetch : List Char → FetchResult) :
    ∀ (urls : List (List Char)) (k i : Nat) (u : List Char), urls[i]? = some u →
      (downloadBatchFrom fetch k urls)[i]? = some (download_image fetch u (k + i)) := by
  intro urls
  induction urls with
  | nil => intro k i u h; simp at h
  | cons v rest ih =>
    intro k i u h
    cases i with
    | zero =>
      simp at h
      subst h
      simp [downloadBatchFrom]
    | succ i2 =>
      have h2 : rest[i2]? = some u := by simpa using h
      have := ih (k + 1) i2 u h2
      rw [show downloadBatchFrom fetch k (v :: rest) =
        download_image fetch v k :: downloadBatchFrom fetch (k + 1) rest from rfl]
      rw [show (download_image fetch v k :: downloadBatchFrom fetch (k + 1) rest)[i2 + 1]? =
        (downloadBatchFrom fetch (k + 1) rest)[i2]? from List.getElem?_cons_succ ..]
      rw [this]
      congr 2
      omega

theorem downloadBatchFrom_succCount (fetch : List Char → FetchResult) :
    ∀ (urls : List (List Char)) (k : Nat),
      succeededCount (downloadBatchFrom fetch k urls) =
        urls.length - urls.countP (fun u => isFailFetch (fetch (stripSizeSuffix u))) := by
  intro urls
  induction urls with
  | nil => intro k; rfl
  | cons u rest ih =>
    intro k
    have hle : rest.countP (fun w => isFailFetch (fetch (stripSizeSuffix w))) ≤ rest.length :=
      List.countP_le_length _
    have ihk := ih (k + 1)
    cases hf : fetch (stripSizeSuffix u) with
    | fail =>
      simp [downloadBatchFrom, succeededCount, download_image, hf, isFailFetch,
        List.countP_cons] at ihk hle ⊢
      omega
    | ok ct =>
      simp [downloadBatchFrom, succeededCount, download_image, hf, isFailFetch,
        List.countP_cons] at ihk hle ⊢
      omega

/-- C8: per-URL failure isolation in the download batch — the batch always
produces one outcome per URL, the success count is the number of URLs minus
the number of failing fetches, every outcome is the isolated result of its
own download call numbered by 1-based list position, a failing fetch yields
a `none` outcome (the exception is swallowed inside `download_image`), and a
successful fetch at position `i` writes `image_{i+1:03d}{ext}`. -/
theorem spec_C8 (fetch : List Char → FetchResult) (urls : List (List Char)) :
    (downloadBatch fetch urls).length = urls.length ∧
    succeededCount (downloadBatch fetch urls) =
      urls.length - urls.countP (fun u => isFailFetch (fetch (stripSizeSuffix u))) ∧
    (∀ (i : Nat) (u : List Char), urls[i]? = some u →
       (downloadBatch fetch urls)[i]? = some (download_image fetch u (i + 1))) ∧
    (∀ (i : Nat) (u : List Char), urls[i]? = some u →
       fetch (stripSizeSuffix u) = FetchResult.fail →
       (downloadBatch fetch urls)[i]? = some none) ∧
    (∀ (i : Nat) (u : List Char) (ct : List Char), urls[i]? = some u →
       fetch (stripSizeSuffix u) = FetchResult.ok ct →
       (downloadBatch fetch urls)[i]? =
         some (some (imageFilePrefixChars ++ pad3 (i + 1) ++ extensionFor ct u))) := by
  have hget : ∀ (i : Nat) (u : List Char), urls[i]? = some u →
      (downloadBatch fetch urls)[i]? = some (download_image fetch u (i + 1)) := by
    intro i u h
    have := downloadBatchFrom_getElem fetch urls 1 i u h
    rw [Nat.add_comm 1 i] at this
    exact this
  refine ⟨downloadBatchFrom_length fetch urls 1,
          downloadBatchFrom_succCount fetch urls 1, hget, ?_, ?_⟩
  · intro i u h hf
    rw [hget i u h]
    simp [download_image, hf]
  · intro i u ct h hf
    rw [hget i u h]
    simp [download_image, hf]

theorem spec_C8_witness :
    (downloadBatch (fun _ => FetchResult.ok ['i', 'm', 'a', 'g', 'e', '/', 'p', 'n', 'g'])
        [['h', 'a'], ['h', 'b']])[1]? =
      some (some (imageFilePrefixChars ++ pad3 2 ++
        extensionFor ['i', 'm', 'a', 'g', 'e', '/', 'p', 'n', 'g'] ['h', 'b'])) :=
  (spec_C8 (fun _ => FetchResult.ok ['i', 'm', 'a', 'g', 'e', '/', 'p', 'n', 'g'])
      [['h', 'a'], ['h', 'b']]).2.2.2.2 1 ['h', 'b']
    ['i', 'm', 'a', 'g', 'e', '/', 'p', 'n', 'g'] rfl rfl

theorem normalizeUrl_fullmatch (l : List Char) (h : imageHostsFullmatch l = true) :
    imageHostsFullmatch (normalizeUrl l) = true := by
  by_cases hs : listStartsWith l twoSlashes = true
  · obtain ⟨rest, rfl⟩ : ∃ rest, l = '/' :: '/' :: rest := by
      rcases l with _ | ⟨c1, _ | ⟨c2, rest⟩⟩
      · simp [listStartsWith, twoSlashes] at hs
      · simp [listStartsWith, twoSlashes] at hs
      · simp [listStartsWith, twoSlashes] at hs
        obtain ⟨h1, h2⟩ := hs
        subst h1; subst h2
        exact ⟨rest, rfl⟩
    have hne : (('/' : Char) == 'h') = false := rfl
    have hrest : checkAfterSlashes rest = true := by
      simp [imageHostsFullmatch, listStartsWith, twoSlashes, httpColonChars,
        httpsColonChars, hne, listStartsWith_nil] at h
      simpa using h
    have hnorm : normalizeUrl ('/' :: '/' :: rest) = httpsColonChars ++ '/' :: '/' :: rest := by
      simp [normalizeUrl, listStartsWith, twoSlashes]
    rw [hnorm]
    have hdrop :
        ((httpsColonChars ++ '/' :: '/' :: rest).drop 8) = rest := rfl
    simp [imageHostsFullmatch, httpsColonChars, twoSlashes, listStartsWith,
      listStartsWith_nil, hdrop, hrest]
  · have hnorm : normalizeUrl l = l := by simp [normalizeUrl, hs]
    rw [hnorm]
    exact h

theorem classifyUrl_props (l u : List Char) (h : classifyUrl l = some u) :
    imageHostsFullmatch u = true ∧ tinyImageParamSearch u = false ∧
      isSmallProfilePic u = false := by
  by_cases h1 : imageHostsFullmatch l = true
  · simp only [classifyUrl, h1, if_true] at h
    by_cases h2 : tinyImageParamSearch (normalizeUrl l) = true
    · simp [h2] at h
    · by_cases h3 : isSmallProfilePic (normalizeUrl l) = true
      · simp [h2, h3] at h
      · simp [h2, h3] at h
        subst h
        exact ⟨normalizeUrl_fullmatch l h1, by simpa using h2, by simpa using h3⟩
  · simp [classifyUrl, h1] at h

theorem mem_classifySet (s u : String) (h : u ∈ classifySet s) :
    classifyUrl s.data = some u.data := by
  cases hc : classifyUrl s.data with
  | none =>
    unfold classifySet at h
    rw [hc] at h
    simp at h
  | some w =>
    unfold classifySet at h
    rw [hc] at h
    have hu : u = String.mk w := by simpa using h
    subst hu
    rfl

theorem findPairs_cons (k : String) (v : JsonVal) (rest : List (String × JsonVal)) :
    findPairs ((k, v) :: rest) = itemUrls v ∪ findPairs rest := by
  cases v <;> simp [findPairs, itemUrls]

theorem findItems_cons (v : JsonVal) (rest : List JsonVal) :
    findItems (v :: rest) = itemUrls v ∪ findItems rest := by
  cases v <;> simp [findItems, itemUrls]

theorem mem_itemUrls (v : JsonVal) (u : String) (h : u ∈ itemUrls v) :
    u ∈ findImageUrls v ∨ ∃ s, v = JsonVal.str s ∧ u ∈ classifySet s := by
  cases v with
  | str s => exact Or.inr ⟨s, rfl, by simpa [itemUrls] using h⟩
  | null => exact Or.inl (by simpa [itemUrls] using h)
  | bool b => exact Or.inl (by simpa [itemUrls] using h)
  | num n => exact Or.inl (by simpa [itemUrls] using h)
  | arr l => exact Or.inl (by simpa [itemUrls] using h)
  | obj kvs => exact Or.inl (by simpa [itemUrls] using h)

theorem findImageUrls_sound (n : Nat) :
    (∀ t : JsonVal, sizeOf t ≤ n → ∀ u : String, u ∈ findImageUrls t →
      ∃ l, classifyUrl l = some u.data) ∧
    (∀ kvs : List (String × JsonVal), sizeOf kvs ≤ n → ∀ u : String, u ∈ findPairs kvs →
      ∃ l, classifyUrl l = some u.data) ∧
    (∀ items : List JsonVal, sizeOf items ≤ n → ∀ u : String, u ∈ findItems items →
      ∃ l, classifyUrl l = some u.data) := by
  induction n using Nat.strong_induction_on with
  | _ n ih =>
    refine ⟨?_, ?_, ?_⟩
    · intro t ht u hu
      cases t with
      | obj kvs =>
        have hsz : sizeOf (JsonVal.obj kvs) = 1 + sizeOf kvs := by simp
        have hlt : sizeOf kvs < n := by omega
        exact (ih (sizeOf kvs) hlt).2.1 kvs (le_refl _) u (by simpa [findImageUrls] using hu)
      | arr l =>
        have hsz : sizeOf (JsonVal.arr l) = 1 + sizeOf l := by simp
        have hlt : sizeOf l < n := by omega
        exact (ih (sizeOf l) hlt).2.2 l (le_refl _) u (by simpa [findImageUrls] using hu)
      | null => simp [findImageUrls] at hu
      | bool b => simp [findImageUrls] at hu
      | num m => simp [findImageUrls] at hu
      | str s => simp [findImageUrls] at hu
    · intro kvs hk u hu
      cases kvs with
      | nil => simp [findPairs] at hu
      | cons kv rest =>
        obtain ⟨k, v⟩ := kv
        rw [findPairs_cons] at hu
        have h1 := @List.cons.sizeOf_spec (String × JsonVal) _ (k, v) rest
        have h2 := @Prod.mk.sizeOf_spec String JsonVal _ _ k v
        have hvlt : sizeOf v < n := by omega
        have hrlt : sizeOf rest < n := by omega
        rcases Finset.mem_union.mp hu with h | h
        · rcases mem_itemUrls v u h with h3 | ⟨s, rfl, hcs⟩
          · exact (ih (sizeOf v) hvlt).1 v (le_refl _) u h3
          · exact ⟨s.data, mem_classifySet s u hcs⟩
        · exact (ih (sizeOf rest) hrlt).2.1 rest (le_refl _) u h
    · intro items hk u hu
      cases items with
      | nil => simp [findItems] at hu
      | cons v rest =>
        rw [findItems_cons] at hu
        have h1 := @List.cons.sizeOf_spec JsonVal _ v rest
        have hvlt : sizeOf v < n := by omega
        have hrlt : sizeOf rest < n := by omega
        rcases Finset.mem_union.mp hu with h | h
        · rcases mem_itemUrls v u h with h3 | ⟨s, rfl, hcs⟩
          · exact (ih (sizeOf v) hvlt).1 v (le_refl _) u h3
          · exact ⟨s.data, mem_classifySet s u hcs⟩
        · exact (ih (sizeOf rest) hrlt).2.2 rest (le_refl _) u h

/-- C3: every URL in the mined set — and hence in the final entity's sorted
`image_urls` list — fully matches the image-host regex (normalization to
`https:` preserves the match), is not flagged by the tiny-size-parameter
search, and is not a profile-picture URL with an embedded size below 100. -/
theorem spec_C3 :
    (∀ (t : JsonVal) (u : String), u ∈ findImageUrls t →
       imageHostsFullmatch u.data = true ∧ tinyImageParamSearch u.data = false ∧
         isSmallProfilePic u.data = false) ∧
    (∀ (o : Option JsonVal) (u : String), u ∈ (processPayload o).image_urls →
       imageHostsFullmatch u.data = true ∧ tinyImageParamSearch u.data = false ∧
         isSmallProfilePic u.data = false) := by
  have main : ∀ (t : JsonVal) (u : String), u ∈ findImageUrls t →
      imageHostsFullmatch u.data = true ∧ tinyImageParamSearch u.data = false ∧
        isSmallProfilePic u.data = false := by
    intro t u hu
    obtain ⟨l, hl⟩ := (findImageUrls_sound (sizeOf t)).1 t (le_refl _) u hu
    exact classifyUrl_props l u.data hl
  refine ⟨main, ?_⟩
  intro o u hu
  match o with
  | none => simp [processPayload] at hu
  | some j =>
    by_cases hj : truthy j = true
    · have hmem : u ∈ findImageUrls j := by
        simp [processPayload, hj, sortedImageUrls, find_image_urls_recursively,
          Finset.mem_sort, Finset.empty_union] at hu
        exact hu
      exact main j u hmem
    · simp [processPayload, hj] at hu

theorem spec_C3_witness :
    imageHostsFullmatch (String.data "https://lh3.googleusercontent.com/abc") = true ∧
    tinyImageParamSearch (String.data "https://lh3.googleusercontent.com/abc") = false ∧
    isSmallProfilePic (String.data "https://lh3.googleusercontent.com/abc") = false :=
  spec_C3.1 (JsonVal.arr [JsonVal.str "https://lh3.googleusercontent.com/abc"])
    "https://lh3.googleusercontent.com/abc" (by decide)

theorem findItems_eq_foldr (l : List JsonVal) :
    findItems l = l.foldr (fun v acc => itemUrls v ∪ acc) ∅ := by
  induction l with
  | nil => rfl
  | cons v rest ih => rw [findItems_cons, ih]; rfl

theorem foldr_union_perm (l₁ l₂ : List JsonVal) (p : l₁.Perm l₂) :
    l₁.foldr (fun v acc => itemUrls v ∪ acc) ∅ = l₂.foldr (fun v acc => itemUrls v ∪ acc) ∅ := by
  induction p with
  | nil => rfl
  | cons x p ih => simp only [List.foldr_cons, ih]
  | swap x y l => simp only [List.foldr_cons, Finset.union_left_comm]
  | trans p q ih1 ih2 => rw [ih1, ih2]

/-- C4: the miner deduplicates by normalized URL — a tree holding the same
valid image URL three times, once protocol-relative, yields the singleton of
the normalized `https:` form; the entity's `image_urls` list is always
sorted; and permuting the children of a node leaves the mined set
unchanged. -/
theorem spec_C4 :
    findImageUrls (JsonVal.arr [JsonVal.str "https://lh3.googleusercontent.com/photo=s500",
        JsonVal.str "//lh3.googleusercontent.com/photo=s500",
        JsonVal.obj [("a", JsonVal.str "https://lh3.googleusercontent.com/photo=s500")]]) =
      {"https://lh3.googleusercontent.com/photo=s500"} ∧
    (∀ t : JsonVal, List.Sorted (· ≤ ·) (sortedImageUrls t)) ∧
    (∀ l₁ l₂ : List JsonVal, l₁.Perm l₂ →
       findImageUrls (JsonVal.arr l₁) = findImageUrls (JsonVal.arr l₂)) := by
  refine ⟨by decide, ?_, ?_⟩
  · intro t
    exact Finset.sort_sorted (· ≤ ·) _
  · intro l₁ l₂ p
    have h1 : findImageUrls (JsonVal.arr l₁) = findItems l₁ := by simp [findImageUrls]
    have h2 : findImageUrls (JsonVal.arr l₂) = findItems l₂ := by simp [findImageUrls]
    rw [h1, h2, findItems_eq_foldr, findItems_eq_foldr, foldr_union_perm l₁ l₂ p]

theorem spec_C4_witness :
    findImageUrls (JsonVal.arr [JsonVal.str "a", JsonVal.null]) =
      findImageUrls (JsonVal.arr [JsonVal.null, JsonVal.str "a"]) :=
  spec_C4.2.2 [JsonVal.str "a", JsonVal.null] [JsonVal.null, JsonVal.str "a"]
    (List.Perm.swap JsonVal.null (JsonVal.str "a") [])
